import Mathlib

/-!
Verification of the Western-to-Carnatic violin note converter.

Shallow embedding of the pitch-to-position mapping engine and the
playback/scroll synchronization scheduler:

* `CorrectConv`  — src/lib/carnatic-converter-correct.ts
* `CoreConv`     — the other converter variant (lib/carnatic-converter.ts,
                   provided as src/unnamed/part_004)
* `Playback`     — the usePlayback hook (src/unnamed/part_005)
* `Scroll`       — the draw loop of src/components/ScrollingNotation.tsx

TypeScript numbers are modelled as `Int` where the code only ever produces
integers (MIDI values, offsets, finger numbers) and as `Rat` where fractional
values arise (tempo-derived quantities, stretch scores, pixel coordinates).
Functions that `throw` are modelled in `Except String`.
-/

set_option maxHeartbeats 1000000

namespace Violin

/-- The four violin strings, the `'G' | 'D' | 'A' | 'E'` literal union of the
source. -/
inductive StringId
  | G
  | D
  | A
  | E
deriving DecidableEq, Repr

namespace CorrectConv

/-- One entry of a per-string position table of
carnatic-converter-correct.ts: `{ semitones, notation, finger, variant? }`.
The source field `notation` is a Lean keyword and is called `nota` here;
`variant` is the `'low' | 'high'` optional field. -/
structure PosEntry where
  semitones : Int
  nota : String
  finger : Int
  variant : Option String
deriving DecidableEq, Repr

/-- Record `CarnaticPosition` of carnatic-converter-correct.ts. -/
structure CarnaticPosition where
  string : StringId
  position : String
  fingerPosition : Int
  variant : Option String
deriving DecidableEq, Repr

/-- Record `WesternNote` of carnatic-converter-correct.ts
(`{ pitch, octave, duration? }`). -/
structure WesternNote where
  pitch : String
  octave : Int
  duration : Option Rat
deriving DecidableEq, Repr

/-- Table `STRING_TUNINGS` of carnatic-converter-correct.ts:
E4 = 64, A3 = 57, D3 = 50 (tonic), G2 = 43. -/
def STRING_TUNINGS : StringId → Int
  | .E => 64
  | .A => 57
  | .D => 50
  | .G => 43

/-- Table `NOTE_TO_MIDI` of carnatic-converter-correct.ts: pitch-class table
with all enharmonic spellings; unknown names are `none` (the record lookup
yields `undefined`). -/
def NOTE_TO_MIDI : String → Option Int
  | "C" => some 0
  | "C#" => some 1
  | "Db" => some 1
  | "D" => some 2
  | "D#" => some 3
  | "Eb" => some 3
  | "E" => some 4
  | "E#" => some 5
  | "Fb" => some 4
  | "F" => some 5
  | "F#" => some 6
  | "Gb" => some 6
  | "G" => some 7
  | "G#" => some 8
  | "Ab" => some 8
  | "A" => some 9
  | "A#" => some 10
  | "Bb" => some 10
  | "B" => some 11
  | "B#" => some 0
  | "Cb" => some 11
  | _ => none

/-- Table `STRING_POSITIONS` of carnatic-converter-correct.ts: the fixed
per-string tables, indexed by semitone offset from the open string. -/
def STRING_POSITIONS : StringId → List PosEntry
  | .G =>
    [⟨0, "Low Ma1", 0, none⟩,
     ⟨1, "Low Dha1", 1, some "low"⟩,
     ⟨2, "Low Dha2", 1, some "high"⟩,
     ⟨3, "Low Ni2", 2, some "low"⟩,
     ⟨4, "Low Ni3", 2, some "high"⟩,
     ⟨5, "Low Sa", 3, none⟩]
  | .D =>
    [⟨0, "Sa", 0, none⟩,
     ⟨1, "Ri1", 1, some "low"⟩,
     ⟨2, "Ri2", 1, some "high"⟩,
     ⟨3, "Ga2", 2, some "low"⟩,
     ⟨4, "Ga3", 2, some "high"⟩,
     ⟨5, "Ma1", 3, none⟩,
     ⟨6, "Ma2", 4, none⟩]
  | .A =>
    [⟨0, "Pa", 0, none⟩,
     ⟨1, "Dha1", 1, some "low"⟩,
     ⟨2, "Dha2", 1, some "high"⟩,
     ⟨3, "Ni2", 2, some "low"⟩,
     ⟨4, "Ni3", 2, some "high"⟩,
     ⟨5, "High Sa.", 3, none⟩]
  | .E =>
    [⟨0, "High Ri2.", 0, none⟩,
     ⟨1, "High Ga2.", 1, some "low"⟩,
     ⟨2, "High Ga3.", 1, some "high"⟩,
     ⟨3, "High Ma1.", 2, some "low"⟩,
     ⟨4, "High Ma2.", 2, some "high"⟩,
     ⟨5, "High Pa.", 3, none⟩]

/-- Model of `pitch.replace(/[0-9]/g, '')`: drop all decimal digits. -/
def stripDigits (s : String) : String :=
  String.mk (s.data.filter (fun c => !c.isDigit))

/-- Method `CarnaticConverter.noteToMidi` of carnatic-converter-correct.ts:
`(octave + 1) * 12 + baseNote`, throwing on an unknown note name. -/
def noteToMidi (pitch : String) (octave : Int) : Except String Int :=
  match NOTE_TO_MIDI (stripDigits pitch) with
  | none => .error ("Invalid note: " ++ pitch)
  | some baseNote => .ok ((octave + 1) * 12 + baseNote)

/-- The iteration order `['E', 'A', 'D', 'G']` of `convertNote`. -/
def strings : List StringId := [.E, .A, .D, .G]

/-- Value of `strings.indexOf` on `['E', 'A', 'D', 'G']`. -/
def stringIndex : StringId → Int
  | .E => 0
  | .A => 1
  | .D => 2
  | .G => 3

/-- Lookup `positions.find(p => p.semitones === semitonesFromOpen)` for one
string. -/
def findEntry (s : StringId) (midi : Int) : Option PosEntry :=
  (STRING_POSITIONS s).find? (fun p => p.semitones == midi - STRING_TUNINGS s)

/-- Build the `bestMatch` record from a table entry. -/
def mkPos (s : StringId) (e : PosEntry) : CarnaticPosition :=
  ⟨s, e.nota, e.finger, e.variant⟩

/-- One iteration of the `for (const string of strings)` loop of
`convertNote`: replace `bestMatch` when the current string's candidate wins
the comparison
`!bestMatch || strings.indexOf(string) > strings.indexOf(bestMatch.string) ||
(string === bestMatch.string && match.finger < bestMatch.fingerPosition)`. -/
def step (midi : Int) (best : Option CarnaticPosition) (s : StringId) :
    Option CarnaticPosition :=
  match findEntry s midi with
  | none => best
  | some m =>
    match best with
    | none => some (mkPos s m)
    | some b =>
      if stringIndex s > stringIndex b.string ∨
          (s = b.string ∧ m.finger < b.fingerPosition) then
        some (mkPos s m)
      else
        some b

/-- The candidate-selection loop of `convertNote` over all four strings. -/
def findBest (midi : Int) : Option CarnaticPosition :=
  strings.foldl (step midi) none

/-- Method `CarnaticConverter.convertNote` of carnatic-converter-correct.ts. -/
def convertNote (n : WesternNote) : Except String (Option CarnaticPosition) :=
  (noteToMidi n.pitch n.octave).map findBest

/-- The documented tie-break preference: lower-pitched strings first
(G over D over A over E).  Spec-side definition used to state C1. -/
def preferenceOrder : List StringId := [.G, .D, .A, .E]

/-- The highest-preference string on which `midi` is reachable, per the
G-D-A-E preference order.  Spec-side definition used to state C1. -/
def firstPreferred (midi : Int) : Option StringId :=
  preferenceOrder.find? (fun s => (findEntry s midi).isSome)

end CorrectConv

namespace CoreConv

/-- Record `CarnaticPosition` of the part_004 converter variant. -/
structure CarnaticPosition where
  string : StringId
  position : String
  fingerPosition : Int
  octaveMarker : Option String
deriving DecidableEq, Repr

/-- Record `WesternNote` of the part_004 converter variant
(`{ pitch, duration, octave }`). -/
structure WesternNote where
  pitch : String
  duration : Rat
  octave : Int
deriving DecidableEq, Repr

/-- Table `STRING_TUNINGS` of the part_004 variant:
G = 55, D = 50, A = 45, E = 40. -/
def STRING_TUNINGS : StringId → Int
  | .G => 55
  | .D => 50
  | .A => 45
  | .E => 40

/-- Table `NOTE_TO_MIDI` of the part_004 variant (no `E#`, `Fb`, `B#`, `Cb`
entries). -/
def NOTE_TO_MIDI : String → Option Int
  | "C" => some 0
  | "C#" => some 1
  | "Db" => some 1
  | "D" => some 2
  | "D#" => some 3
  | "Eb" => some 3
  | "E" => some 4
  | "F" => some 5
  | "F#" => some 6
  | "Gb" => some 6
  | "G" => some 7
  | "G#" => some 8
  | "Ab" => some 8
  | "A" => some 9
  | "A#" => some 10
  | "Bb" => some 10
  | "B" => some 11
  | _ => none

/-- Table `STRING_POSITIONS` of the part_004 variant: per-string label lists
indexed by semitone offset. -/
def STRING_POSITIONS : StringId → List String
  | .G => ["SA", "RE1", "RE2", "GA2", "GA3", "MA1", "MA2"]
  | .D => ["PA", "DA1", "DA2", "NI2", "NI3", "SA."]
  | .A => ["Sa", "Re1", "Re2", "Ga2", "Ga3", "Ma1", "Ma2"]
  | .E => ["Pa", "Da1", "Da2", "Ni2", "Ni3", "Sa.", "Re1.", "Re2.",
           "Ga2.", "Ga3.", "Ma1.", "Ma2.", "Pa."]

/-- Model of `pitch.replace(/[0-9]/g, '')` in the part_004 variant. -/
def stripDigits (s : String) : String :=
  String.mk (s.data.filter (fun c => !c.isDigit))

/-- Method `CarnaticConverter.noteToMidi` of the part_004 variant: throws on
unknown names. -/
def noteToMidi (pitch : String) (octave : Int) : Except String Int :=
  match NOTE_TO_MIDI (stripDigits pitch) with
  | none => .error ("Invalid note: " ++ pitch)
  | some baseNote => .ok ((octave + 1) * 12 + baseNote)

/-- The iteration order `['G', 'D', 'A', 'E']` of `findBestPosition`. -/
def strings : List StringId := [.G, .D, .A, .E]

/-- Value of `strings.indexOf` on `['G', 'D', 'A', 'E']`. -/
def stringIndex : StringId → Int
  | .G => 0
  | .D => 1
  | .A => 2
  | .E => 3

/-- One iteration of the `findBestPosition` loop of the part_004 variant.
The accumulator carries `bestMatch` together with `minStretch`
(`none` models the initial `bestMatch = null`, `minStretch = Infinity`);
stretch is `strings.indexOf(string) * 0.5 + semitonesFromOpen * 0.1`.
JavaScript's binary floats for `0.5`/`0.1` are modelled as exact rationals;
all comparisons exercised below are far from the float rounding error. -/
def step (midi : Int) (acc : Option (CarnaticPosition × Rat)) (s : StringId) :
    Option (CarnaticPosition × Rat) :=
  let off := midi - STRING_TUNINGS s
  if 0 ≤ off ∧ off ≤ 12 then
    let positions := STRING_POSITIONS s
    if off < (positions.length : Int) then
      let position := positions.getD off.toNat ""
      let stretch : Rat := (stringIndex s : Rat) * (1 / 2) + (off : Rat) * (1 / 10)
      match acc with
      | none => some (⟨s, position, off, none⟩, stretch)
      | some a =>
        if stretch < a.2 then some (⟨s, position, off, none⟩, stretch) else some a
    else acc
  else acc

/-- Method `CarnaticConverter.findBestPosition` of the part_004 variant. -/
def findBestPosition (midi : Int) : Option CarnaticPosition :=
  (strings.foldl (step midi) none).map Prod.fst

/-- Method `CarnaticConverter.convertNote` of the part_004 variant. -/
def convertNote (n : WesternNote) : Except String (Option CarnaticPosition) :=
  (noteToMidi n.pitch n.octave).map findBestPosition

/-- Method `CarnaticConverter.convertScore` of the part_004 variant:
`notes.map(note => this.convertNote(note))` under JavaScript exception
semantics — the callback runs left to right and the first `throw` aborts
the whole `map` call. -/
def convertScore : List WesternNote → Except String (List (Option CarnaticPosition))
  | [] => .ok []
  | n :: rest =>
    match convertNote n with
    | .error e => .error e
    | .ok p =>
      match convertScore rest with
      | .error e => .error e
      | .ok ps => .ok (p :: ps)

end CoreConv

namespace Playback

/-- Line `const beatDuration = (60 / tempo) * 1000` of the usePlayback hook
(part_005). -/
def beatDuration (tempo : Rat) : Rat := 60 / tempo * 1000

/-- Line `const noteDuration = currentNote.duration * beatDuration` of the
usePlayback hook (part_005); this value is passed to `setTimeout`. -/
def noteDuration (duration tempo : Rat) : Rat := duration * beatDuration tempo

end Playback

namespace Scroll

/-- Mutable refs of the ScrollingNotation component used by the draw loop:
`scrollY` and `lastPlayedIdx` (initially 0 and -1). -/
structure SState where
  scrollY : Rat
  lastPlayedIdx : Int
deriving DecidableEq, Repr

/-- Value of `['G', 'D', 'A', 'E'].indexOf(n.string)` in the draw loop;
parsed notes always carry one of the four strings, so this is never -1. -/
def laneIndex : StringId → Int
  | .G => 0
  | .D => 1
  | .A => 2
  | .E => 3

/-- Body of `notes.forEach((n, idx) => ...)` in `draw`: computes the note's
`y = targetY - idx * spacing + scrollY` with `targetY = h - 100` and
`spacing = 200`, culls off-screen notes (`y < -50 || y > h + 50`), and fires
the audio trigger (returned `Bool`) when the note is active
(`Math.abs(y - targetY) < 30`) and `idx !== lastPlayedIdx` while sound is
enabled and playback is on, updating `lastPlayedIdx`.  Only the note's
string matters for control flow; display-only fields (note name, octave,
label text) are omitted. -/
def noteStep (h : Rat) (sound playing : Bool) (scroll : Rat) (idx : Nat)
    (last : Int) (str : StringId) : Int × Bool :=
  let targetY : Rat := h - 100
  let y : Rat := targetY - (idx : Rat) * 200 + scroll
  if laneIndex str = -1 then (last, false)
  else if y < -50 ∨ y > h + 50 then (last, false)
  else if |y - targetY| < 30 ∧ (idx : Int) ≠ last ∧ sound = true ∧ playing = true then
    ((idx : Int), true)
  else (last, false)

/-- The `forEach` over the loaded notes, threading `lastPlayedIdx` and
collecting the indices whose audio trigger fired this frame. -/
def frameNotes (h : Rat) (sound playing : Bool) (scroll : Rat) :
    List StringId → Nat → Int → Int × List Nat
  | [], _, last => (last, [])
  | str :: rest, k, last =>
    let r1 := noteStep h sound playing scroll k last str
    let r2 := frameNotes h sound playing scroll rest (k + 1) r1.1
    (r2.1, (if r1.2 then [k] else []) ++ r2.2)

/-- One call of `draw`: advance `scrollY` by `tempo / 30` while playing,
then process every note. -/
def frame (h tempo : Rat) (sound playing : Bool) (strs : List StringId)
    (st : SState) : SState × List Nat :=
  let scroll := if playing = true then st.scrollY + tempo / 30 else st.scrollY
  let r := frameNotes h sound playing scroll strs 0 st.lastPlayedIdx
  (⟨scroll, r.1⟩, r.2)

/-- A run of `T` consecutive animation frames, concatenating the audio
trigger events of every frame. -/
def run (h tempo : Rat) (sound playing : Bool) (strs : List StringId) :
    Nat → SState → SState × List Nat
  | 0, st => (st, [])
  | T + 1, st =>
    let r1 := frame h tempo sound playing strs st
    let r2 := run h tempo sound playing strs T r1.1
    (r2.1, r1.2 ++ r2.2)

end Scroll

namespace CorrectConv

/-- Case analysis of the selection loop: since `convertNote` iterates
`['E', 'A', 'D', 'G']` and a later (larger `strings.indexOf`) candidate
always replaces the current `bestMatch`, the final result is the candidate
of the first reachable string in the G-D-A-E preference order. -/
lemma findBest_spec (midi : Int) :
    (firstPreferred midi = none → findBest midi = none) ∧
    (∀ s₀, firstPreferred midi = some s₀ →
      ∃ e, findEntry s₀ midi = some e ∧ findBest midi = some (mkPos s₀ e)) := by
  rcases hE : findEntry .E midi with _ | eE <;>
    rcases hA : findEntry .A midi with _ | eA <;>
      rcases hD : findEntry .D midi with _ | eD <;>
        rcases hG : findEntry .G midi with _ | eG <;>
          simp +decide [findBest, strings, step, firstPreferred, preferenceOrder,
            List.find?, hE, hA, hD, hG, mkPos, stringIndex]

/-- Every entry of the fixed position tables has offset between 0 and 6 and
finger number between 0 and 4. -/
lemma table_bounds : ∀ s : StringId, ∀ e ∈ STRING_POSITIONS s,
    0 ≤ e.semitones ∧ e.semitones ≤ 6 ∧ 0 ≤ e.finger ∧ e.finger ≤ 4 := by
  intro s; cases s <;> decide

/-- C1: for every absolute pitch reachable on at least one string,
`convertNote` returns exactly one `CarnaticPosition` whose string is the
single highest-preference candidate under the fixed tie-break order
(lower-pitched strings first: G over D over A over E), and re-running
`convertNote` on the same input always yields the same result. -/
theorem convertNote_highest_preference (n : WesternNote) (midi : Int)
    (hm : noteToMidi n.pitch n.octave = .ok midi)
    (hreach : ∃ s, (findEntry s midi).isSome) :
    ∃ s₀ p, firstPreferred midi = some s₀ ∧ convertNote n = .ok (some p) ∧
      p.string = s₀ ∧ convertNote n = convertNote n := by
  obtain ⟨s, hs⟩ := hreach
  have hmem : s ∈ preferenceOrder := by cases s <;> decide
  have hsome : (preferenceOrder.find? (fun s => (findEntry s midi).isSome)).isSome :=
    List.find?_isSome.mpr ⟨s, hmem, hs⟩
  obtain ⟨s₀, hs₀⟩ := Option.isSome_iff_exists.mp hsome
  obtain ⟨e, he, hb⟩ := (findBest_spec midi).2 s₀ hs₀
  exact ⟨s₀, mkPos s₀ e, hs₀, by simp [convertNote, hm, hb, Except.map], rfl, rfl⟩

/-- Witness for C1 at the concrete note D3 (MIDI 50, reachable only on the
D string, which is the highest-preference candidate). -/
theorem convertNote_highest_preference_witness :
    noteToMidi "D" 3 = .ok 50 ∧ (∃ s, (findEntry s 50).isSome) ∧
      ∃ s₀ p, firstPreferred 50 = some s₀ ∧
        convertNote ⟨"D", 3, none⟩ = .ok (some p) ∧ p.string = s₀ ∧
        convertNote ⟨"D", 3, none⟩ = convertNote ⟨"D", 3, none⟩ :=
  ⟨rfl, ⟨.D, rfl⟩,
    convertNote_highest_preference ⟨"D", 3, none⟩ 50 rfl ⟨.D, rfl⟩⟩

/-- C7: for every recognized note name and every integer octave the computed
absolute pitch is `(octave + 1) * 12 + pitchClass(noteName)`, and the pitch
class table assigns the same value to enharmonic spellings, so C#/Db, D#/Eb,
E#/F, Fb/E, B#/C and Cb/B at equal octave yield equal absolute pitch. -/
theorem noteToMidi_formula_and_enharmonics :
    (∀ (name : String) (pc octave : Int),
        NOTE_TO_MIDI (stripDigits name) = some pc →
        noteToMidi name octave = .ok ((octave + 1) * 12 + pc)) ∧
    (∀ octave : Int,
      noteToMidi "C#" octave = noteToMidi "Db" octave ∧
      noteToMidi "D#" octave = noteToMidi "Eb" octave ∧
      noteToMidi "E#" octave = noteToMidi "F" octave ∧
      noteToMidi "Fb" octave = noteToMidi "E" octave ∧
      noteToMidi "B#" octave = noteToMidi "C" octave ∧
      noteToMidi "Cb" octave = noteToMidi "B" octave) := by
  constructor
  · intro name pc octave h
    simp [noteToMidi, h]
  · intro octave
    exact ⟨rfl, rfl, rfl, rfl, rfl, rfl⟩

/-- Witness for C7 at the concrete spelling C#4 (pitch class 1, absolute
pitch 61, equal to Db4). -/
theorem noteToMidi_formula_and_enharmonics_witness :
    NOTE_TO_MIDI (stripDigits "C#") = some 1 ∧
      noteToMidi "C#" 4 = .ok 61 ∧ noteToMidi "C#" 4 = noteToMidi "Db" 4 :=
  ⟨rfl,
    by
      have := noteToMidi_formula_and_enharmonics.1 "C#" 1 4 rfl
      simpa using this,
    (noteToMidi_formula_and_enharmonics.2 4).1⟩

/-- C9: resolving the open-string pitch of each of the four strings (G2, D3,
A3, E4 — exactly the `STRING_TUNINGS` values, offset 0) yields finger number
0 and the label of that string's index-0 position-table entry. -/
theorem open_string_roundtrip :
    (noteToMidi "G" 2 = .ok (STRING_TUNINGS .G) ∧
      (STRING_POSITIONS .G).head? = some ⟨0, "Low Ma1", 0, none⟩ ∧
      convertNote ⟨"G", 2, none⟩ = .ok (some ⟨.G, "Low Ma1", 0, none⟩)) ∧
    (noteToMidi "D" 3 = .ok (STRING_TUNINGS .D) ∧
      (STRING_POSITIONS .D).head? = some ⟨0, "Sa", 0, none⟩ ∧
      convertNote ⟨"D", 3, none⟩ = .ok (some ⟨.D, "Sa", 0, none⟩)) ∧
    (noteToMidi "A" 3 = .ok (STRING_TUNINGS .A) ∧
      (STRING_POSITIONS .A).head? = some ⟨0, "Pa", 0, none⟩ ∧
      convertNote ⟨"A", 3, none⟩ = .ok (some ⟨.A, "Pa", 0, none⟩)) ∧
    (noteToMidi "E" 4 = .ok (STRING_TUNINGS .E) ∧
      (STRING_POSITIONS .E).head? = some ⟨0, "High Ri2.", 0, none⟩ ∧
      convertNote ⟨"E", 4, none⟩ = .ok (some ⟨.E, "High Ri2.", 0, none⟩)) :=
  ⟨⟨rfl, rfl, rfl⟩, ⟨rfl, rfl, rfl⟩, ⟨rfl, rfl, rfl⟩, ⟨rfl, rfl, rfl⟩⟩

/-- C10: whenever `convertNote` returns a position for a recognized note, the
(string, label, finger) triple is exactly a position-table entry at offset
`midi - STRING_TUNINGS string`; consequently the finger number lies in
[0, 4] and the offset in [0, 6]. -/
theorem convertNote_table_invariant (n : WesternNote) (midi : Int)
    (p : CarnaticPosition)
    (hm : noteToMidi n.pitch n.octave = .ok midi)
    (hp : convertNote n = .ok (some p)) :
    ∃ s e, e ∈ STRING_POSITIONS s ∧ e.semitones = midi - STRING_TUNINGS s ∧
      p = mkPos s e ∧ 0 ≤ p.fingerPosition ∧ p.fingerPosition ≤ 4 ∧
      0 ≤ midi - STRING_TUNINGS s ∧ midi - STRING_TUNINGS s ≤ 6 := by
  have hfb : findBest midi = some p := by
    have hok : Except.ok (ε := String) (findBest midi) = Except.ok (some p) := by
      simpa [convertNote, hm, Except.map] using hp
    simpa using hok
  rcases hfp : firstPreferred midi with _ | s₀
  · rw [(findBest_spec midi).1 hfp] at hfb
    exact absurd hfb (by simp)
  · obtain ⟨e, he, hb⟩ := (findBest_spec midi).2 s₀ hfp
    rw [hfb] at hb
    have hpe : p = mkPos s₀ e := by injection hb
    have hmem := List.mem_of_find?_eq_some he
    have hpred : e.semitones = midi - STRING_TUNINGS s₀ := by
      have := List.find?_some he
      simpa using this
    obtain ⟨h1, h2, h3, h4⟩ := table_bounds s₀ e hmem
    exact ⟨s₀, e, hmem, hpred, hpe, by simp [hpe, mkPos, h3],
      by simp [hpe, mkPos, h4], hpred ▸ h1, hpred ▸ h2⟩

/-- Witness for C10 at the concrete note D3 resolving to (D, "Sa", 0). -/
theorem convertNote_table_invariant_witness :
    noteToMidi "D" 3 = .ok 50 ∧
      (∃ s e, e ∈ STRING_POSITIONS s ∧ e.semitones = 50 - STRING_TUNINGS s ∧
        (⟨.D, "Sa", 0, none⟩ : CarnaticPosition) = mkPos s e ∧
        0 ≤ (0 : Int) ∧ (0 : Int) ≤ 4 ∧
        0 ≤ 50 - STRING_TUNINGS s ∧ 50 - STRING_TUNINGS s ≤ 6) := by
  refine ⟨rfl, ?_⟩
  have := convertNote_table_invariant ⟨"D", 3, none⟩ 50 ⟨.D, "Sa", 0, none⟩ rfl rfl
  simpa using this

end CorrectConv

namespace CoreConv

/-- C3: for every note sequence whose pitch names are all recognized,
`convertScore` returns a sequence of the same length, index-aligned with the
input — the i-th output is `convertNote` of the i-th input note — so an
unplayable note yields a `none` entry at its index rather than being
dropped. -/
theorem convertScore_index_aligned (notes : List WesternNote)
    (hrec : ∀ n ∈ notes, (NOTE_TO_MIDI (stripDigits n.pitch)).isSome) :
    ∃ out, convertScore notes = .ok out ∧ out.length = notes.length ∧
      ∀ (i : Nat) (hi : i < notes.length) (ho : i < out.length),
        convertNote (notes.get ⟨i, hi⟩) = .ok (out.get ⟨i, ho⟩) := by
  induction notes with
  | nil => exact ⟨[], rfl, rfl, by intro i hi ho; simp at hi⟩
  | cons n rest ih =>
    obtain ⟨out, hout, hlen, hidx⟩ :=
      ih (fun m hm => hrec m (List.mem_cons_of_mem n hm))
    have hn := hrec n (List.mem_cons_self n rest)
    obtain ⟨b, hb⟩ := Option.isSome_iff_exists.mp hn
    have hcn : convertNote n = .ok (findBestPosition ((n.octave + 1) * 12 + b)) := by
      simp [convertNote, noteToMidi, hb, Except.map]
    refine ⟨findBestPosition ((n.octave + 1) * 12 + b) :: out, ?_,
      by simp [hlen], ?_⟩
    · simp [convertScore, hcn, hout]
    · intro i hi ho
      match i with
      | 0 => simpa using hcn
      | Nat.succ j => exact hidx j (by simpa using hi) (by simpa using ho)

/-- Witness for C3 on the concrete two-note score [D3, C0]: the call
succeeds and yields exactly two entries (C0 is unplayable, giving a `none`
entry rather than a shorter list). -/
theorem convertScore_index_aligned_witness :
    ∃ out, convertScore [⟨"D", 1, 3⟩, ⟨"C", 1, 0⟩] = .ok out ∧
      out.length = 2 := by
  obtain ⟨out, h1, h2, h3⟩ :=
    convertScore_index_aligned [⟨"D", 1, 3⟩, ⟨"C", 1, 0⟩] (by decide)
  exact ⟨out, h1, by simpa using h2⟩

/-- Counterexample to C4: on the score [D3, H3, E3], whose second note has
the unrecognized pitch name "H", `convertScore` aborts the whole mapping
with the `InvalidPitchName` error — the third note never receives its
resolution, contradicting the claimed per-note failure handling. -/
theorem convertScore_abort_counterexample :
    convertScore [⟨"D", 1, 3⟩, ⟨"H", 1, 3⟩, ⟨"E", 1, 3⟩] =
      .error "Invalid note: H" := rfl

/-- C4 as amended: whenever the input sequence contains at least one note
with an unrecognized pitch name, `convertScore` aborts the mapping of the
whole score with an error (the `noteToMidi` throw propagates out of the
`map`), so no note receives a resolution. -/
theorem convertScore_aborts_on_invalid (notes : List WesternNote)
    (hbad : ∃ n ∈ notes, NOTE_TO_MIDI (stripDigits n.pitch) = none) :
    ∃ msg, convertScore notes = .error msg := by
  induction notes with
  | nil => simp at hbad
  | cons n rest ih =>
    rcases hbad with ⟨m, hm, hnone⟩
    rcases List.mem_cons.mp hm with h | h
    · subst h
      exact ⟨"Invalid note: " ++ m.pitch,
        by simp [convertScore, convertNote, noteToMidi, hnone, Except.map]⟩
    · rcases hc : convertNote n with e | p
      · exact ⟨e, by simp [convertScore, hc]⟩
      · obtain ⟨msg, hmsg⟩ := ih ⟨m, h, hnone⟩
        exact ⟨msg, by simp [convertScore, hc, hmsg]⟩

/-- Witness for the amended C4 on the concrete one-note score [H3]. -/
theorem convertScore_aborts_on_invalid_witness :
    ∃ msg, convertScore [⟨"H", 1, 3⟩] = .error msg :=
  convertScore_aborts_on_invalid [⟨"H", 1, 3⟩] ⟨⟨"H", 1, 3⟩, by decide, by decide⟩

end CoreConv

/-- Evaluation of the part_004 variant on MIDI 50 (D3): the D string wins
with stretch 1/2 against A (3/2) and E (5/2), giving label "PA". -/
lemma coreConv_D3 :
    CoreConv.findBestPosition 50 = some ⟨.D, "PA", 0, none⟩ := by
  have s1 : CoreConv.step 50 none .G = none := by
    norm_num [CoreConv.step, CoreConv.STRING_TUNINGS]
  have s2 : CoreConv.step 50 none .D =
      some (⟨.D, "PA", 0, none⟩, (1 : Rat) / 2) := by
    norm_num [CoreConv.step, CoreConv.STRING_TUNINGS, CoreConv.STRING_POSITIONS,
      CoreConv.stringIndex]
  have s3 : CoreConv.step 50 (some (⟨.D, "PA", 0, none⟩, (1 : Rat) / 2)) .A =
      some (⟨.D, "PA", 0, none⟩, (1 : Rat) / 2) := by
    norm_num [CoreConv.step, CoreConv.STRING_TUNINGS, CoreConv.STRING_POSITIONS,
      CoreConv.stringIndex]
  have s4 : CoreConv.step 50 (some (⟨.D, "PA", 0, none⟩, (1 : Rat) / 2)) .E =
      some (⟨.D, "PA", 0, none⟩, (1 : Rat) / 2) := by
    norm_num [CoreConv.step, CoreConv.STRING_TUNINGS, CoreConv.STRING_POSITIONS,
      CoreConv.stringIndex]
  show (CoreConv.strings.foldl (CoreConv.step 50) none).map Prod.fst = _
  rw [CoreConv.strings, List.foldl_cons, s1, List.foldl_cons, s2,
    List.foldl_cons, s3, List.foldl_cons, s4, List.foldl_nil]
  rfl

/-- C8: the two converter variants disagree on the note D3: the
carnatic-converter-correct.ts variant returns (D, "Sa", finger 0) while the
part_004 variant returns (D, "PA", finger 0) — a different label. -/
theorem variants_disagree :
    CorrectConv.convertNote ⟨"D", 3, none⟩ =
        .ok (some ⟨.D, "Sa", 0, none⟩) ∧
      CoreConv.convertNote ⟨"D", 1, 3⟩ = .ok (some ⟨.D, "PA", 0, none⟩) ∧
      ("Sa" : String) ≠ "PA" := by
  refine ⟨rfl, ?_, by decide⟩
  have hm : CoreConv.noteToMidi "D" 3 = .ok 50 := rfl
  show (CoreConv.noteToMidi "D" 3).map CoreConv.findBestPosition = _
  rw [hm]
  simp [Except.map, coreConv_D3]

namespace Playback

/-- Counterexample to C5: at tempo -60 BPM the playback clock computes the
note duration -1000 ms for a one-beat note — a negative duration is
produced and scheduled; no error path exists in the hook. -/
theorem noteDuration_negative_counterexample :
    noteDuration 1 (-60) = -1000 ∧ noteDuration 1 (-60) < 0 := by
  constructor <;> norm_num [noteDuration, beatDuration]

/-- C5 as amended: the playback clock performs no tempo validation — for
every negative tempo and positive beat count it produces a negative note
duration instead of rejecting with an error (and tempo 0 flows through a
division by zero). -/
theorem noteDuration_no_tempo_validation (tempo duration : Rat)
    (ht : tempo < 0) (hd : 0 < duration) :
    noteDuration duration tempo < 0 := by
  unfold noteDuration beatDuration
  have h1 : (60 : Rat) / tempo < 0 := div_neg_of_pos_of_neg (by norm_num) ht
  have h2 : (60 : Rat) / tempo * 1000 < 0 := by nlinarith
  exact mul_neg_of_pos_of_neg hd h2

/-- Witness for the amended C5 at tempo -60, duration 1. -/
theorem noteDuration_no_tempo_validation_witness : noteDuration 1 (-60) < 0 :=
  noteDuration_no_tempo_validation (-60) 1 (by norm_num) one_pos

end Playback

namespace Scroll

/-- Activation windows of distinct note indices are disjoint: 200 px spacing
against a ±30 px tolerance. -/
lemma window_unique {σ : Rat} {i j : Nat} (hi : |σ - (i : Rat) * 200| < 30)
    (hj : |σ - (j : Rat) * 200| < 30) : i = j := by
  by_contra hne
  rw [abs_lt] at hi hj
  rcases Nat.lt_or_ge i j with hlt | hge
  · have hc : ((i : Rat) + 1) ≤ (j : Rat) := by exact_mod_cast hlt
    linarith [hi.1, hi.2, hj.1, hj.2]
  · have hlt' : j < i := lt_of_le_of_ne hge (Ne.symm hne)
    have hc : ((j : Rat) + 1) ≤ (i : Rat) := by exact_mod_cast hlt'
    linarith [hi.1, hi.2, hj.1, hj.2]

/-- With sound and playback on and a canvas of height at least 80 px, the
per-note body reduces to the activation guard: fire exactly when the note is
inside its window and its index differs from `lastPlayedIdx` (an active note
is never culled, since its `y` lies in (h-130, h-70)). -/
lemma noteStep_spec {h : Rat} (hh : 80 ≤ h) (σ : Rat) (k : Nat) (l : Int)
    (str : StringId) :
    noteStep h true true σ k l str =
      if |σ - (k : Rat) * 200| < 30 ∧ (k : Int) ≠ l then ((k : Int), true)
      else (l, false) := by
  unfold noteStep
  have hlane : ¬ laneIndex str = -1 := by cases str <;> decide
  rw [if_neg hlane]
  have hyt : h - 100 - (k : Rat) * 200 + σ - (h - 100) = σ - (k : Rat) * 200 := by
    ring
  by_cases hw : |σ - (k : Rat) * 200| < 30 ∧ (k : Int) ≠ l
  · have habs : |h - 100 - (k : Rat) * 200 + σ - (h - 100)| < 30 := by
      rw [hyt]; exact hw.1
    have habs' := abs_lt.mp habs
    have h1 : ¬ (h - 100 - (k : Rat) * 200 + σ < -50 ∨
        h - 100 - (k : Rat) * 200 + σ > h + 50) := by
      push_neg
      constructor
      · linarith [habs'.1]
      · linarith [habs'.2]
    rw [if_neg h1, if_pos ⟨habs, hw.2, rfl, rfl⟩, if_pos hw]
  · rw [if_neg hw]
    by_cases hcull : h - 100 - (k : Rat) * 200 + σ < -50 ∨
        h - 100 - (k : Rat) * 200 + σ > h + 50
    · rw [if_pos hcull]
    · rw [if_neg hcull]
      have hno : ¬ (|h - 100 - (k : Rat) * 200 + σ - (h - 100)| < 30 ∧
          (k : Int) ≠ l ∧ true = true ∧ true = true) := by
        rintro ⟨a, b, -, -⟩
        exact hw ⟨hyt ▸ a, b⟩
      rw [if_neg hno]

/-- One frame's note pass either fires exactly one event — the unique
in-window index differing from `lastPlayedIdx`, which becomes the new
`lastPlayedIdx` — or fires nothing and leaves `lastPlayedIdx` unchanged, in
which case every in-window in-range index already equals `lastPlayedIdx`. -/
lemma frameNotes_spec {h : Rat} (hh : 80 ≤ h) (σ : Rat) :
    ∀ (L : List StringId) (k : Nat) (l : Int),
      (∃ i : Nat, k ≤ i ∧ i < k + L.length ∧ |σ - (i : Rat) * 200| < 30 ∧
        (i : Int) ≠ l ∧ frameNotes h true true σ L k l = ((i : Int), [i])) ∨
      (frameNotes h true true σ L k l = (l, []) ∧
        ∀ i : Nat, k ≤ i → i < k + L.length → |σ - (i : Rat) * 200| < 30 →
          (i : Int) = l) := by
  intro L
  induction L with
  | nil =>
    intro k l
    right
    exact ⟨rfl, fun i h1 h2 _ => by simp at h2; omega⟩
  | cons str rest ih =>
    intro k l
    by_cases hfire : |σ - (k : Rat) * 200| < 30 ∧ (k : Int) ≠ l
    · left
      refine ⟨k, le_refl k, by simp, hfire.1, hfire.2, ?_⟩
      have hrec : frameNotes h true true σ rest (k + 1) (k : Int) =
          ((k : Int), []) := by
        rcases ih (k + 1) (k : Int) with ⟨i, hi1, _, hiw, hine, _⟩ | ⟨heq, _⟩
        · exact absurd (window_unique hiw hfire.1) (by omega)
        · exact heq
      show (let r1 := noteStep h true true σ k l str
            let r2 := frameNotes h true true σ rest (k + 1) r1.1
            (r2.1, (if r1.2 then [k] else []) ++ r2.2)) = ((k : Int), [k])
      rw [noteStep_spec hh, if_pos hfire]
      simp [hrec]
    · have hstep : noteStep h true true σ k l str = (l, false) := by
        rw [noteStep_spec hh, if_neg hfire]
      rcases ih (k + 1) l with ⟨i, hi1, hi2, hiw, hine, hieq⟩ | ⟨heq, hprop⟩
      · left
        refine ⟨i, by omega, by simp; omega, hiw, hine, ?_⟩
        show (let r1 := noteStep h true true σ k l str
              let r2 := frameNotes h true true σ rest (k + 1) r1.1
              (r2.1, (if r1.2 then [k] else []) ++ r2.2)) = ((i : Int), [i])
        rw [hstep]
        simp [hieq]
      · right
        constructor
        · show (let r1 := noteStep h true true σ k l str
                let r2 := frameNotes h true true σ rest (k + 1) r1.1
                (r2.1, (if r1.2 then [k] else []) ++ r2.2)) = (l, [])
          rw [hstep]
          simp [heq]
        · intro i h1 h2 hiw
          rcases Nat.eq_or_lt_of_le h1 with rfl | hlt
          · by_contra hne
            exact hfire ⟨hiw, hne⟩
          · exact hprop i hlt (by simp at h2 ⊢; omega) hiw

/-- Unfolding of one frame while playing. -/
lemma frame_eq (h tempo : Rat) (strs : List StringId) (st : SState) :
    frame h tempo true true strs st =
      (⟨st.scrollY + tempo / 30,
        (frameNotes h true true (st.scrollY + tempo / 30) strs 0
          st.lastPlayedIdx).1⟩,
       (frameNotes h true true (st.scrollY + tempo / 30) strs 0
          st.lastPlayedIdx).2) := by
  show (let scroll := if true = true then st.scrollY + tempo / 30 else st.scrollY
        let r := frameNotes h true true scroll strs 0 st.lastPlayedIdx
        ((⟨scroll, r.1⟩ : SState), r.2)) = _
  simp

/-- One frame advances the scroll by `tempo / 30` and either fires exactly
one event or none, per `frameNotes_spec`. -/
lemma frame_spec {h : Rat} (tempo : Rat) (hh : 80 ≤ h) (strs : List StringId)
    (st : SState) :
    (frame h tempo true true strs st).1.scrollY = st.scrollY + tempo / 30 ∧
    ((∃ i : Nat, i < strs.length ∧
        |st.scrollY + tempo / 30 - (i : Rat) * 200| < 30 ∧
        (i : Int) ≠ st.lastPlayedIdx ∧
        (frame h tempo true true strs st).1.lastPlayedIdx = (i : Int) ∧
        (frame h tempo true true strs st).2 = [i]) ∨
      ((frame h tempo true true strs st).1.lastPlayedIdx = st.lastPlayedIdx ∧
        (frame h tempo true true strs st).2 = [] ∧
        ∀ i : Nat, i < strs.length →
          |st.scrollY + tempo / 30 - (i : Rat) * 200| < 30 →
          (i : Int) = st.lastPlayedIdx)) := by
  rw [frame_eq]
  refine ⟨rfl, ?_⟩
  rcases frameNotes_spec hh (st.scrollY + tempo / 30) strs 0 st.lastPlayedIdx with
    ⟨i, _, hi2, hiw, hine, hieq⟩ | ⟨heq, hprop⟩
  · left
    exact ⟨i, by simpa using hi2, hiw, hine, by rw [hieq], by rw [hieq]⟩
  · right
    exact ⟨by rw [heq], by rw [heq],
      fun i hlen hw => hprop i (Nat.zero_le i) (by simpa using hlen) hw⟩

/-- The state invariant "whenever `lastPlayedIdx` is a note index, that
note's window has already opened below the current scroll" is preserved by
every frame. -/
lemma frame_pre {h tempo : Rat} (hh : 80 ≤ h) (ht : 0 < tempo)
    (strs : List StringId) (st : SState)
    (hpre : ∀ m : Nat, st.lastPlayedIdx = (m : Int) →
      200 * (m : Rat) - 30 < st.scrollY) :
    ∀ m : Nat, (frame h tempo true true strs st).1.lastPlayedIdx = (m : Int) →
      200 * (m : Rat) - 30 < (frame h tempo true true strs st).1.scrollY := by
  obtain ⟨hsc, hcase⟩ := frame_spec tempo hh strs st
  intro m hm
  rw [hsc]
  have hδ : 0 < tempo / 30 := by positivity
  rcases hcase with ⟨i, _, hiw, _, hlast1, _⟩ | ⟨hlast1, _, _⟩
  · rw [hlast1] at hm
    have him : i = m := by exact_mod_cast hm
    subst him
    have := abs_lt.mp hiw
    linarith [this.1]
  · rw [hlast1] at hm
    have := hpre m hm
    linarith

/-- Unfolding of a run of `T + 1` frames. -/
lemma run_succ (h tempo : Rat) (sound playing : Bool) (strs : List StringId)
    (T : Nat) (st : SState) :
    run h tempo sound playing strs (T + 1) st =
      ((run h tempo sound playing strs T
          (frame h tempo sound playing strs st).1).1,
       (frame h tempo sound playing strs st).2 ++
         (run h tempo sound playing strs T
           (frame h tempo sound playing strs st).1).2) := rfl

/-- Upper bound: over any run, a note index fires at most once, and not at
all if its window has already been passed or it is the current
`lastPlayedIdx`.  The key geometric facts are that scroll only increases and
distinct windows are disjoint. -/
lemma run_count_le {h tempo : Rat} (hh : 80 ≤ h) (ht : 0 < tempo)
    (strs : List StringId) :
    ∀ (T : Nat) (st : SState),
      (∀ m : Nat, st.lastPlayedIdx = (m : Int) →
        200 * (m : Rat) - 30 < st.scrollY) →
      ∀ j : Nat,
        (run h tempo true true strs T st).2.count j ≤
          (if st.scrollY < 200 * (j : Rat) + 30 ∧ st.lastPlayedIdx ≠ (j : Int)
           then 1 else 0) := by
  intro T
  induction T with
  | zero =>
    intro st hpre j
    simp only [run, List.count_nil]
    split <;> omega
  | succ T ih =>
    intro st hpre j
    have hδ : 0 < tempo / 30 := by positivity
    obtain ⟨hsc, hcase⟩ := frame_spec tempo hh strs st
    have hpre1 := frame_pre hh ht strs st hpre
    have hIH := ih (frame h tempo true true strs st).1 hpre1 j
    rw [run_succ, List.count_append]
    rcases hcase with ⟨i, hilen, hiw, hine, hlast1, hev⟩ | ⟨hlast1, hev, hprop⟩
    · have hwin := abs_lt.mp hiw
      by_cases hij : j = i
      · subst hij
        rw [hev]
        have hrest : (run h tempo true true strs T
            (frame h tempo true true strs st).1).2.count j = 0 := by
          rw [if_neg] at hIH
          · omega
          · rintro ⟨-, hne⟩
            exact hne hlast1
        have hcond : st.scrollY < 200 * (j : Rat) + 30 ∧
            st.lastPlayedIdx ≠ (j : Int) := by
          refine ⟨by linarith [hwin.2], fun hl => hine hl.symm⟩
        rw [if_pos hcond]
        simp [hrest]
      · rw [hev]
        have hevc : List.count j [i] = 0 := by
          simp [List.count_singleton]
          omega
        rw [hevc]
        by_cases hc1 : (frame h tempo true true strs st).1.scrollY <
            200 * (j : Rat) + 30 ∧
            (frame h tempo true true strs st).1.lastPlayedIdx ≠ (j : Int)
        · have hgc : st.scrollY < 200 * (j : Rat) + 30 ∧
              st.lastPlayedIdx ≠ (j : Int) := by
            have hc11 := hc1.1
            rw [hsc] at hc11
            constructor
            · linarith
            · intro hlj
              have hb := hpre j hlj
              have hσj : |st.scrollY + tempo / 30 - (j : Rat) * 200| < 30 :=
                abs_lt.mpr ⟨by linarith, by linarith⟩
              exact hij (window_unique hσj hiw)
          rw [if_pos hgc]
          rw [if_pos hc1] at hIH
          omega
        · rw [if_neg hc1] at hIH
          split <;> omega
    · rw [hev]
      have hevc : List.count j ([] : List Nat) = 0 := rfl
      rw [hevc]
      by_cases hc1 : (frame h tempo true true strs st).1.scrollY <
          200 * (j : Rat) + 30 ∧
          (frame h tempo true true strs st).1.lastPlayedIdx ≠ (j : Int)
      · have hc11 := hc1.1
        rw [hsc] at hc11
        have hgc : st.scrollY < 200 * (j : Rat) + 30 ∧
            st.lastPlayedIdx ≠ (j : Int) := by
          refine ⟨by linarith, ?_⟩
          rw [hlast1] at hc1
          exact hc1.2
        rw [if_pos hgc]
        rw [if_pos hc1] at hIH
        omega
      · rw [if_neg hc1] at hIH
        split <;> omega

/-- Lower bound: a note index whose window lies ahead of the current scroll
fires at least once in any run long enough to cross that window, given the
per-frame advance stays below the 60 px window width. -/
lemma run_fires {h tempo : Rat} (hh : 80 ≤ h) (ht0 : 0 < tempo)
    (ht1 : tempo < 1800) (strs : List StringId) :
    ∀ (T : Nat) (st : SState) (j : Nat), j < strs.length →
      (∀ m : Nat, st.lastPlayedIdx = (m : Int) →
        200 * (m : Rat) - 30 < st.scrollY) →
      st.scrollY ≤ 200 * (j : Rat) - 30 →
      200 * (j : Rat) - 30 < st.scrollY + (T : Rat) * (tempo / 30) →
      1 ≤ (run h tempo true true strs T st).2.count j := by
  intro T
  induction T with
  | zero =>
    intro st j hj hpre hlow hhigh
    exfalso
    simp only [Nat.cast_zero, zero_mul, add_zero] at hhigh
    linarith
  | succ T ih =>
    intro st j hj hpre hlow hhigh
    have hδ0 : 0 < tempo / 30 := by positivity
    have hδ60 : tempo / 30 < 60 := by
      rw [div_lt_iff₀ (by norm_num : (0 : Rat) < 30)]
      linarith
    obtain ⟨hsc, hcase⟩ := frame_spec tempo hh strs st
    have hpre1 := frame_pre hh ht0 strs st hpre
    rw [run_succ, List.count_append]
    by_cases hcross : 200 * (j : Rat) - 30 < st.scrollY + tempo / 30
    · have hwin : |st.scrollY + tempo / 30 - (j : Rat) * 200| < 30 :=
        abs_lt.mpr ⟨by linarith, by linarith⟩
      rcases hcase with ⟨i, hilen, hiw, hine, hlast1, hev⟩ | ⟨hlast1, hev, hprop⟩
      · have hji : i = j := window_unique hiw hwin
        subst hji
        rw [hev]
        have : List.count i [i] = 1 := by simp
        omega
      · exfalso
        have hlj := hprop j hj hwin
        have := hpre j hlj.symm
        linarith
    · push_neg at hcross
      have hrec := ih (frame h tempo true true strs st).1 j hj hpre1
        (by rw [hsc]; exact hcross)
        (by
          rw [hsc]
          have : ((T : Rat) + 1) * (tempo / 30) =
              tempo / 30 + (T : Rat) * (tempo / 30) := by ring
          push_cast at hhigh
          linarith)
      omega

/-- C2: during one forward pass at a fixed tempo with sound on (initial
state scroll 0, `lastPlayedIdx` -1), the audio trigger fires exactly once
per note index: the `lastPlayedIdx` guard blocks every re-trigger while the
note stays inside the 30 px window across consecutive frames, and any run
long enough to carry the note's window past the target line fires it exactly
once. -/
theorem activation_exactly_once (h tempo : Rat) (strs : List StringId)
    (T j : Nat) (hh : 80 ≤ h) (ht0 : 0 < tempo) (ht1 : tempo < 900)
    (hj : j < strs.length)
    (hT : 200 * (j : Rat) + 30 ≤ (T : Rat) * (tempo / 30)) :
    (run h tempo true true strs T ⟨0, -1⟩).2.count j = 1 := by
  have hδ0 : 0 < tempo / 30 := by positivity
  have hδ30 : tempo / 30 < 30 := by
    rw [div_lt_iff₀ (by norm_num : (0 : Rat) < 30)]
    linarith
  have hpre : ∀ m : Nat, (⟨0, -1⟩ : SState).lastPlayedIdx = (m : Int) →
      200 * (m : Rat) - 30 < (⟨0, -1⟩ : SState).scrollY := by
    intro m hm
    have hm' : (-1 : Int) = (m : Int) := hm
    omega
  have hub := run_count_le hh ht0 strs T ⟨0, -1⟩ hpre j
  rw [if_pos ⟨by positivity, by
    intro hc
    have hc' : (-1 : Int) = (j : Int) := hc
    omega⟩] at hub
  have hlb : 1 ≤ (run h tempo true true strs T ⟨0, -1⟩).2.count j := by
    rcases Nat.eq_zero_or_pos j with rfl | hj1
    · obtain ⟨T', rfl⟩ : ∃ T', T = T' + 1 := by
        cases T with
        | zero =>
          exfalso
          simp only [Nat.cast_zero, zero_mul, Nat.cast_ofNat] at hT
          simp at hT
          linarith
        | succ T' => exact ⟨T', rfl⟩
      obtain ⟨hsc, hcase⟩ := frame_spec tempo hh strs (⟨0, -1⟩ : SState)
      rw [run_succ, List.count_append]
      have hwin0 : |(⟨0, -1⟩ : SState).scrollY + tempo / 30 -
          ((0 : Nat) : Rat) * 200| < 30 := by
        have hz : (⟨0, -1⟩ : SState).scrollY = 0 := rfl
        rw [hz]
        push_cast
        rw [abs_lt]
        constructor <;> linarith
      rcases hcase with ⟨i, hilen, hiw, hine, hlast1, hev⟩ | ⟨hlast1, hev, hprop⟩
      · have hi0 : i = 0 := window_unique hiw hwin0
        subst hi0
        rw [hev]
        have : List.count 0 [0] = 1 := by simp
        omega
      · exfalso
        have hcontra := hprop 0 hj hwin0
        have hcontra' : ((0 : Nat) : Int) = -1 := hcontra
        omega
    · apply run_fires hh ht0 (by linarith) strs T ⟨0, -1⟩ j hj hpre
      · show (⟨0, -1⟩ : SState).scrollY ≤ 200 * (j : Rat) - 30
        have hz : (⟨0, -1⟩ : SState).scrollY = 0 := rfl
        rw [hz]
        have hcj : (1 : Rat) ≤ (j : Rat) := by exact_mod_cast hj1
        linarith
      · show 200 * (j : Rat) - 30 <
            (⟨0, -1⟩ : SState).scrollY + (T : Rat) * (tempo / 30)
        have hz : (⟨0, -1⟩ : SState).scrollY = 0 := rfl
        rw [hz]
        linarith
  omega

/-- Witness for C2: a single-note score at tempo 120 over 8 frames fires
note 0 exactly once. -/
theorem activation_exactly_once_witness :
    0 < [StringId.D].length ∧
      (run 600 120 true true [StringId.D] 8 ⟨0, -1⟩).2.count 0 = 1 :=
  ⟨by norm_num,
    activation_exactly_once 600 120 [StringId.D] 8 0 (by norm_num) (by norm_num)
      (by norm_num) (by norm_num) (by norm_num)⟩

/-- Counterexample to C6: at tempo 120 the scroll offset advances 8 px over
2 ticks but 16 px over 4 ticks — the total advance is proportional to the
number of ticks, so two tick sequences covering the same wall-clock interval
at different frame rates scroll by different amounts (the model has no
elapsed-time input at all: the draw loop adds the constant `tempo / 30` per
call). -/
theorem scroll_rate_counterexample :
    (run 600 120 true true [] 2 ⟨0, -1⟩).1.scrollY = 8 ∧
      (run 600 120 true true [] 4 ⟨0, -1⟩).1.scrollY = 16 ∧
      (8 : Rat) ≠ 16 := by
  refine ⟨?_, ?_, by norm_num⟩ <;>
    · simp [run, frame, frameNotes]
      norm_num

/-- C6 as amended: while playing, every rendering tick advances the scroll
offset by the fixed amount `tempo / 30` irrespective of elapsed wall-clock
time, so after `T` ticks the offset has advanced by exactly
`T * (tempo / 30)` — frame-rate-dependent, not elapsed-time-scaled. -/
theorem scroll_advance_per_tick (h tempo : Rat) (strs : List StringId)
    (T : Nat) (st : SState) :
    (run h tempo true true strs T st).1.scrollY =
      st.scrollY + (T : Rat) * (tempo / 30) := by
  induction T generalizing st with
  | zero => simp [run]
  | succ T ih =>
    have hsc : (frame h tempo true true strs st).1.scrollY =
        st.scrollY + tempo / 30 := by
      rw [frame_eq]
    have hfst : (run h tempo true true strs (T + 1) st).1.scrollY =
        (run h tempo true true strs T
          (frame h tempo true true strs st).1).1.scrollY := rfl
    rw [hfst, ih, hsc]
    push_cast
    ring

end Scroll

end Violin
